import Mathlib

/-!
Shallow embedding of `src/PyMca/plotting/ctools/_ctools/src/InsidePolygonWithBounds.c`.

The C file classifies query points against a 2D polygon with the ray-casting
(crossing-number) algorithm.  Double-precision values are modelled as exact
rationals (`ℚ`): every concrete coordinate appearing in the claims is exactly
representable in a double, and the claims concern the branch structure of the
algorithm, not rounding.  The sentinel bytes `INSIDE` and `OUTSIDE` and the
`MIN`/`MAX` macros come from `InsidePolygonWithBounds.h`, which is not under
`src/`; they are modelled from the spec (§6: any two distinct fixed byte
values; `MIN`/`MAX` are the usual binary minimum/maximum).
-/

namespace InsidePolygonC

/-- Structure `Point` from the header: a pair of double-precision coordinates,
modelled exactly as rationals. -/
structure Point where
  x : ℚ
  y : ℚ
deriving DecidableEq, Repr

/-- Structure `PointF` from the header: query-point variant whose coordinates are stored
as single-precision floats; the coordinate is modelled by the exact rational
value it denotes (all arithmetic in `_INSIDE_POLYGON` promotes it to double,
which is exact). -/
structure PointF where
  x : ℚ
  y : ℚ
deriving DecidableEq, Repr

/-- Structure `PointInt` from the header: query-point variant with integer coordinates. -/
structure PointInt where
  x : ℤ
  y : ℤ
deriving DecidableEq, Repr

/-- Modelled from the spec: `INSIDE` is a fixed sentinel byte defined in the
header `InsidePolygonWithBounds.h` (not under `src/`); the spec only requires
two distinct byte values, chosen here as 1. -/
def INSIDE : Nat := 1

/-- Modelled from the spec: `OUTSIDE` is the other fixed sentinel byte from the
header, chosen here as 0, distinct from `INSIDE`. -/
def OUTSIDE : Nat := 0

/-- The interpolated x-coordinate computed in the loop body of
`_INSIDE_POLYGON`: `xinters = (p.y-p1.y)*(p2.x-p1.x)/(p2.y-p1.y)+p1.x`.
It is only ever read under the guard `p1.y != p2.y`, so the rational
division-by-zero convention is never exercised on the guarded path. -/
def xinters (p1 p2 : Point) (py : ℚ) : ℚ :=
  (py - p1.y) * (p2.x - p1.x) / (p2.y - p1.y) + p1.x

/-- The nested conditional of the loop body of `_INSIDE_POLYGON`
(lines 22-32 of the C file): `true` exactly when the edge `(p1, p2)`
increments `counter` for the query point `(px, py)`. -/
def countsEdge (p1 p2 : Point) (px py : ℚ) : Bool :=
  if py > min p1.y p2.y then
    if py ≤ max p1.y p2.y then
      if px ≤ max p1.x p2.x then
        if p1.y ≠ p2.y then
          if p1.x = p2.x ∨ px ≤ xinters p1 p2 py then true else false
        else false
      else false
    else false
  else false

/-- The `for (i=1;i<=N;i++)` loop of `_INSIDE_POLYGON`, with `fuel` the number
of remaining iterations (`fuel = N + 1 - i`).  Each iteration first performs
the exact vertex-coincidence early exit on `p1`, then reads
`p2 = polygon[i % N]`, updates `counter`, and advances with `p1 = p2`.
After the loop the parity of `counter` selects `OUTSIDE` or `INSIDE`. -/
def insideLoop (polygon : List Point) (px py : ℚ) (border : Nat) :
    Nat → Nat → Point → Nat → Nat
  | 0, _i, _p1, counter => if counter % 2 = 0 then OUTSIDE else INSIDE
  | fuel + 1, i, p1, counter =>
    if p1.x = px ∧ p1.y = py then border
    else
      let p2 := polygon.getD (i % polygon.length) ⟨0, 0⟩
      insideLoop polygon px py border fuel (i + 1) p2
        (if countsEdge p1 p2 px py then counter + 1 else counter)

/-- Function `_InsidePolygon` (the `_INSIDE_POLYGON` macro instantiated at `Point`):
classify one double-precision query point against the polygon.  `N` is the
vertex count, which by the caller contract is the length of `polygon`. -/
def _InsidePolygon (polygon : List Point) (p : Point) (border : Nat) : Nat :=
  insideLoop polygon p.x p.y border polygon.length 1 (polygon.getD 0 ⟨0, 0⟩) 0

/-- Function `_InsidePolygonF` (the macro instantiated at `PointF`): the generated code
is identical except that the query point's coordinates are floats, promoted to
double in every comparison and in the interpolation; promotion is exact, so in
the model the float coordinate is used directly. -/
def _InsidePolygonF (polygon : List Point) (p : PointF) (border : Nat) : Nat :=
  insideLoop polygon p.x p.y border polygon.length 1 (polygon.getD 0 ⟨0, 0⟩) 0

/-- Function `_InsidePolygonInt` (the macro instantiated at `PointInt`): integer query
coordinates, promoted to double (exactly) in every comparison. -/
def _InsidePolygonInt (polygon : List Point) (p : PointInt) (border : Nat) : Nat :=
  insideLoop polygon (p.x : ℚ) (p.y : ℚ) border polygon.length 1 (polygon.getD 0 ⟨0, 0⟩) 0

/-- The raw-buffer reinterpretation performed by the batch entry points
(`polygon = (Point *) vertices`, `point = (Point *) points_xy`, …): a flat
interleaved x,y buffer read as consecutive two-field records. -/
def pairUp {α : Type} : List α → List (α × α)
  | x :: y :: rest => (x, y) :: pairUp rest
  | _ => []

/-- Conversion `border = (unsigned char) border_value`: C conversion of a (possibly
negative or out-of-range) `int` to `unsigned char`, i.e. reduction
modulo 256. -/
def byteOfInt (v : ℤ) : Nat := (v % 256).toNat

/-- The batch loop shared in shape by the three entry points
(`for (i=0; i < N_points_xy; i++) { *p = classify(...); p++; point++; }`):
walk the query points in index order starting at output slot `i`, write each
classification into its slot, and record the trace of written slot indices in
order.  `List.set` models the store through the output pointer. -/
def batchLoop {α : Type} (classify : α → Nat) :
    List α → Nat → List Nat → List Nat × List Nat
  | [], _i, out => (out, [])
  | pt :: rest, i, out =>
    let r := batchLoop classify rest (i + 1) (out.set i (classify pt))
    (r.1, i :: r.2)

/-- Observable outcome of one batch call: the final contents of the three
caller buffers plus the ordered trace of output slots written. -/
structure BatchResult (α : Type) where
  vertices : List ℚ
  points : List α
  output : List Nat
  writes : List Nat
deriving Repr

/-- Entry point `PointsInsidePolygon`: double-precision batch entry point.  It
reinterprets both flat buffers as point records, narrows `border_value` to a
byte, and fills `output` by repeated `_InsidePolygon` calls.  The vertex and
point buffers are only ever read, which the model records by returning them
unchanged alongside the final output buffer. -/
def PointsInsidePolygon (vertices : List ℚ) (points_xy : List ℚ)
    (border_value : ℤ) (output : List Nat) : BatchResult ℚ :=
  let polygon := (pairUp vertices).map (fun q => Point.mk q.1 q.2)
  let pts := (pairUp points_xy).map (fun q => Point.mk q.1 q.2)
  let border := byteOfInt border_value
  let r := batchLoop (fun pt => _InsidePolygon polygon pt border) pts 0 output
  ⟨vertices, points_xy, r.1, r.2⟩

/-- Entry point `PointsInsidePolygonF`: single-precision batch entry point (query buffer
holds floats, modelled by the exact rationals they denote). -/
def PointsInsidePolygonF (vertices : List ℚ) (points_xy : List ℚ)
    (border_value : ℤ) (output : List Nat) : BatchResult ℚ :=
  let polygon := (pairUp vertices).map (fun q => Point.mk q.1 q.2)
  let pts := (pairUp points_xy).map (fun q => PointF.mk q.1 q.2)
  let border := byteOfInt border_value
  let r := batchLoop (fun pt => _InsidePolygonF polygon pt border) pts 0 output
  ⟨vertices, points_xy, r.1, r.2⟩

/-- Entry point `PointsInsidePolygonInt`: integer batch entry point. -/
def PointsInsidePolygonInt (vertices : List ℚ) (points_xy : List ℤ)
    (border_value : ℤ) (output : List Nat) : BatchResult ℤ :=
  let polygon := (pairUp vertices).map (fun q => Point.mk q.1 q.2)
  let pts := (pairUp points_xy).map (fun q => PointInt.mk q.1 q.2)
  let border := byteOfInt border_value
  let r := batchLoop (fun pt => _InsidePolygonInt polygon pt border) pts 0 output
  ⟨vertices, points_xy, r.1, r.2⟩

/-!
Spec-level definitions, written from the words of the claims rather than from
the C source, for the refinement statements. -/

/-- Written from the claim's words: edge `(p1,p2)` counts as a crossing for
query point `p` exactly when `p.y > min(p1.y,p2.y)`, `p.y ≤ max(p1.y,p2.y)`,
`p.x ≤ max(p1.x,p2.x)`, `p1.y ≠ p2.y`, and (`p1.x = p2.x` or
`p.x ≤ xintersect` with
`xintersect = (p.y-p1.y)*(p2.x-p1.x)/(p2.y-p1.y)+p1.x`). -/
def specCrossing (p p1 p2 : Point) : Bool :=
  decide (p.y > min p1.y p2.y) && decide (p.y ≤ max p1.y p2.y) &&
    decide (p.x ≤ max p1.x p2.x) && decide (p1.y ≠ p2.y) &&
    (decide (p1.x = p2.x) ||
      decide (p.x ≤ (p.y - p1.y) * (p2.x - p1.x) / (p2.y - p1.y) + p1.x))

/-- The `N` wrap-around edges `(v[i], v[(i+1) mod N])` of the polygon, as the
claims describe them. -/
def wrapEdges (polygon : List Point) : List (Point × Point) :=
  (List.range polygon.length).map
    (fun i => (polygon.getD i ⟨0, 0⟩,
               polygon.getD ((i + 1) % polygon.length) ⟨0, 0⟩))

/-- Number of wrap-around edges that count as crossings for `p`, per the
claim's description. -/
def crossingCount (polygon : List Point) (p : Point) : Nat :=
  ((wrapEdges polygon).filter (fun e => specCrossing p e.1 e.2)).length

/-- Crossings contributed by source-level edges `j, j+1, …, N-1` (edge `j`
joins `v[j]` to `v[(j+1) mod N]`); the loop invariant of `insideLoop` is
phrased with it. -/
def crossingsFrom (polygon : List Point) (px py : ℚ) (k : Nat) : Nat :=
  ((List.range' k (polygon.length - k)).filter
    (fun j => countsEdge (polygon.getD j ⟨0, 0⟩)
      (polygon.getD ((j + 1) % polygon.length) ⟨0, 0⟩) px py)).length

/-- The convex-square test polygon of the spec: `[(0,0),(0,10),(10,10),(10,0)]`. -/
def squarePoly : List Point := [⟨0, 0⟩, ⟨0, 10⟩, ⟨10, 10⟩, ⟨10, 0⟩]

/-!  Helper lemmas. -/

/-- The nested conditional of the source loop computes exactly the crossing
condition as the spec phrases it. -/
lemma countsEdge_eq_specCrossing (p p1 p2 : Point) :
    countsEdge p1 p2 p.x p.y = specCrossing p p1 p2 := by
  simp only [countsEdge, specCrossing, xinters]
  by_cases h1 : p.y > min p1.y p2.y <;>
    by_cases h2 : p.y ≤ max p1.y p2.y <;>
      by_cases h3 : p.x ≤ max p1.x p2.x <;>
        by_cases h4 : p1.y = p2.y <;>
          simp [h1, h2, h3, h4]

/-- Peeling one edge off the tail crossing count. -/
lemma crossingsFrom_succ (polygon : List Point) (px py : ℚ) (k : Nat)
    (hk : k < polygon.length) :
    crossingsFrom polygon px py k =
      (if countsEdge (polygon.getD k ⟨0, 0⟩)
          (polygon.getD ((k + 1) % polygon.length) ⟨0, 0⟩) px py
        then 1 else 0) + crossingsFrom polygon px py (k + 1) := by
  unfold crossingsFrom
  have h : polygon.length - k = (polygon.length - (k + 1)) + 1 := by omega
  rw [h, List.range'_succ, List.filter_cons]
  split <;> simp <;> omega

/-- Loop invariant of `insideLoop` on the vertex-coincidence-free path: the
final answer is the parity of the counter plus the crossings of the edges not
yet scanned.  At iteration `i` the previous vertex `p1` is
`polygon[(i-1) mod N]`. -/
lemma insideLoop_parity (polygon : List Point) (p : Point) (b : Nat)
    (hnv : ∀ v ∈ polygon, ¬(v.x = p.x ∧ v.y = p.y)) :
    ∀ fuel i counter, i + fuel = polygon.length + 1 → 1 ≤ i →
      0 < polygon.length →
      insideLoop polygon p.x p.y b fuel i
        (polygon.getD ((i - 1) % polygon.length) ⟨0, 0⟩) counter =
      (if (counter + crossingsFrom polygon p.x p.y (i - 1)) % 2 = 0
        then OUTSIDE else INSIDE) := by
  intro fuel
  induction fuel with
  | zero =>
    intro i counter hi h1 hN
    have hi' : i - 1 = polygon.length := by omega
    simp [insideLoop, crossingsFrom, hi']
  | succ fuel ih =>
    intro i counter hi h1 hN
    have hjlt : i - 1 < polygon.length := by omega
    have hmod : (i - 1) % polygon.length = i - 1 := Nat.mod_eq_of_lt hjlt
    have hmem : polygon.getD ((i - 1) % polygon.length) ⟨0, 0⟩ ∈ polygon := by
      rw [hmod, List.getD_eq_getElem _ _ hjlt]
      exact List.getElem_mem hjlt
    have hne : ¬((polygon.getD ((i - 1) % polygon.length) ⟨0, 0⟩).x = p.x ∧
        (polygon.getD ((i - 1) % polygon.length) ⟨0, 0⟩).y = p.y) :=
      hnv _ hmem
    simp only [insideLoop, if_neg hne]
    have hstep : i + 1 - 1 = i := by omega
    have h2 := ih (i + 1)
      (if countsEdge (polygon.getD ((i - 1) % polygon.length) ⟨0, 0⟩)
          (polygon.getD (i % polygon.length) ⟨0, 0⟩) p.x p.y
        then counter + 1 else counter)
      (by omega) (by omega) hN
    rw [hstep] at h2
    rw [h2]
    have hsucc : i - 1 + 1 = i := by omega
    have h3 := crossingsFrom_succ polygon p.x p.y (i - 1) hjlt
    rw [hsucc] at h3
    rw [h3, hmod]
    by_cases hc : countsEdge (polygon.getD (i - 1) ⟨0, 0⟩)
        (polygon.getD (i % polygon.length) ⟨0, 0⟩) p.x p.y = true
    · rw [if_pos hc, if_pos hc, ← Nat.add_assoc]
    · rw [if_neg hc, if_neg hc, Nat.zero_add]

/-- The spec-level crossing count coincides with the count the source loop
accumulates over all `N` edges. -/
lemma crossingCount_eq (polygon : List Point) (p : Point) :
    crossingCount polygon p = crossingsFrom polygon p.x p.y 0 := by
  unfold crossingCount crossingsFrom wrapEdges
  rw [Nat.sub_zero, ← List.range_eq_range', List.filter_map, List.length_map]
  congr 1
  apply List.filter_congr
  intro j _
  simp [Function.comp, countsEdge_eq_specCrossing]

/-- For a query point that coincides with no vertex, `_InsidePolygon` returns
the parity verdict of the spec-level crossing count. -/
lemma inside_eq_parity (polygon : List Point) (p : Point) (b : Nat)
    (hN : 0 < polygon.length)
    (hnv : ∀ v ∈ polygon, ¬(v.x = p.x ∧ v.y = p.y)) :
    _InsidePolygon polygon p b =
      (if crossingCount polygon p % 2 = 0 then OUTSIDE else INSIDE) := by
  have h := insideLoop_parity polygon p b hnv polygon.length 1 0
    (by omega) (by omega) hN
  simp only [Nat.sub_self, Nat.zero_mod, Nat.zero_add] at h
  unfold _InsidePolygon
  have h0 : (0 : Nat) % polygon.length = 0 := Nat.zero_mod _
  rw [crossingCount_eq]
  simpa using h

/-- The only early exit of the loop is the vertex-coincidence return: if the
current previous vertex matches the query point, or a vertex still to be
visited as a previous vertex matches it, the loop returns `border`.  Vertex
`polygon[(i + t) mod N]` is the previous vertex checked `t + 2` iterations
from now. -/
lemma insideLoop_border (polygon : List Point) (px py : ℚ) (b : Nat) :
    ∀ fuel i p1 counter,
      ((1 ≤ fuel ∧ p1.x = px ∧ p1.y = py) ∨
       (∃ t, t + 1 < fuel ∧
         (polygon.getD ((i + t) % polygon.length) ⟨0, 0⟩).x = px ∧
         (polygon.getD ((i + t) % polygon.length) ⟨0, 0⟩).y = py)) →
      insideLoop polygon px py b fuel i p1 counter = b := by
  intro fuel
  induction fuel with
  | zero =>
    intro i p1 counter h
    rcases h with ⟨h, _⟩ | ⟨t, ht, _⟩ <;> omega
  | succ fuel ih =>
    intro i p1 counter h
    rcases h with ⟨_, hx, hy⟩ | ⟨t, ht, hx, hy⟩
    · simp [insideLoop, hx, hy]
    · by_cases hc : p1.x = px ∧ p1.y = py
      · simp [insideLoop, hc]
      · simp only [insideLoop, if_neg hc]
        cases t with
        | zero =>
          apply ih
          left
          refine ⟨by omega, ?_, ?_⟩
          · simpa using hx
          · simpa using hy
        | succ t' =>
          apply ih
          right
          refine ⟨t', by omega, ?_, ?_⟩
          · have harg : i + 1 + t' = i + (t' + 1) := by omega
            rw [harg]; exact hx
          · have harg : i + 1 + t' = i + (t' + 1) := by omega
            rw [harg]; exact hy

/-- If the query point coincides (bit-exactly) with the vertex at position
`j`, the predicate returns the border value, whatever `j` is. -/
lemma inside_border_of_vertex (polygon : List Point) (p : Point) (b : Nat)
    (j : Nat) (hj : j < polygon.length)
    (hx : (polygon.getD j ⟨0, 0⟩).x = p.x)
    (hy : (polygon.getD j ⟨0, 0⟩).y = p.y) :
    _InsidePolygon polygon p b = b := by
  unfold _InsidePolygon
  apply insideLoop_border
  cases j with
  | zero =>
    left
    exact ⟨by omega, hx, hy⟩
  | succ j' =>
    right
    refine ⟨j', by omega, ?_, ?_⟩
    · have harg : (1 + j') % polygon.length = j' + 1 := by
        rw [Nat.add_comm]; exact Nat.mod_eq_of_lt hj
      rw [harg]; exact hx
    · have harg : (1 + j') % polygon.length = j' + 1 := by
        rw [Nat.add_comm]; exact Nat.mod_eq_of_lt hj
      rw [harg]; exact hy

/-- Membership form of the vertex-coincidence exit. -/
lemma inside_border_of_mem (polygon : List Point) (p : Point) (b : Nat)
    (v : Point) (hv : v ∈ polygon) (hx : v.x = p.x) (hy : v.y = p.y) :
    _InsidePolygon polygon p b = b := by
  obtain ⟨j, hj, hget⟩ := List.mem_iff_getElem.mp hv
  apply inside_border_of_vertex polygon p b j hj
  · rw [List.getD_eq_getElem _ _ hj, hget]; exact hx
  · rw [List.getD_eq_getElem _ _ hj, hget]; exact hy

/-- Vertex-coincidence exit for the float instantiation (float query
coordinates promote exactly to double). -/
lemma insideF_border_of_mem (polygon : List Point) (p : PointF) (b : Nat)
    (v : Point) (hv : v ∈ polygon) (hx : v.x = p.x) (hy : v.y = p.y) :
    _InsidePolygonF polygon p b = b :=
  inside_border_of_mem polygon ⟨p.x, p.y⟩ b v hv hx hy

/-- Vertex-coincidence exit for the int instantiation (integer query
coordinates promote exactly to double). -/
lemma insideInt_border_of_mem (polygon : List Point) (p : PointInt) (b : Nat)
    (v : Point) (hv : v ∈ polygon)
    (hx : v.x = (p.x : ℚ)) (hy : v.y = (p.y : ℚ)) :
    _InsidePolygonInt polygon p b = b :=
  inside_border_of_mem polygon ⟨(p.x : ℚ), (p.y : ℚ)⟩ b v hv hx hy

lemma length_wrapEdges (l : List Point) : (wrapEdges l).length = l.length := by
  simp [wrapEdges]

lemma getElem_wrapEdges (l : List Point) (i : Nat)
    (h : i < (wrapEdges l).length) :
    (wrapEdges l)[i] =
      (l.getD i ⟨0, 0⟩, l.getD ((i + 1) % l.length) ⟨0, 0⟩) := by
  simp [wrapEdges]

lemma getD_rotate (l : List Point) (k j : Nat) (hj : j < l.length) :
    (l.rotate k).getD j ⟨0, 0⟩ = l.getD ((j + k) % l.length) ⟨0, 0⟩ := by
  have hN : 0 < l.length := by omega
  have hj' : j < (l.rotate k).length := by
    rw [List.length_rotate]; exact hj
  rw [List.getD_eq_getElem _ _ hj', List.getElem_rotate,
      List.getD_eq_getElem _ _ (Nat.mod_lt _ hN)]

/-- Rotating the vertex list rotates the wrap-around edge list by the same
amount: the cyclic edge structure is preserved. -/
lemma wrapEdges_rotate (l : List Point) (k : Nat) :
    wrapEdges (l.rotate k) = (wrapEdges l).rotate k := by
  apply List.ext_getElem
  · simp [length_wrapEdges, List.length_rotate]
  · intro i h1 h2
    have hiN : i < l.length := by
      simpa [length_wrapEdges, List.length_rotate] using h1
    have hN : 0 < l.length := by omega
    rw [getElem_wrapEdges, List.getElem_rotate, getElem_wrapEdges]
    simp only [length_wrapEdges, List.length_rotate]
    rw [getD_rotate l k i hiN,
        getD_rotate l k ((i + 1) % l.length) (Nat.mod_lt _ hN)]
    have hidx : ((i + 1) % l.length + k) % l.length =
        ((i + k) % l.length + 1) % l.length := by
      rw [Nat.mod_add_mod, Nat.mod_add_mod, Nat.add_assoc,
          Nat.add_comm 1 k, ← Nat.add_assoc]
    rw [hidx]


/-- Rotating the polygon does not change the spec-level crossing count. -/
lemma crossingCount_rotate (l : List Point) (p : Point) (k : Nat) :
    crossingCount (l.rotate k) p = crossingCount l p := by
  unfold crossingCount
  rw [wrapEdges_rotate]
  apply List.Perm.length_eq
  exact (List.rotate_perm (wrapEdges l) k).filter _

/-!  Batch-loop lemmas. -/

/-- The batch loop never changes the length of the output buffer. -/
lemma batchLoop_length {α : Type} (classify : α → Nat) :
    ∀ (pts : List α) (i : Nat) (out : List Nat),
      (batchLoop classify pts i out).1.length = out.length
  | [], _, _ => rfl
  | _ :: rest, i, out => by
    simp only [batchLoop]
    rw [batchLoop_length classify rest (i + 1) _, List.length_set]

/-- The batch loop writes exactly the slots `i, i+1, …, i+len-1`, in index
order, one write per slot. -/
lemma batchLoop_writes {α : Type} (classify : α → Nat) :
    ∀ (pts : List α) (i : Nat) (out : List Nat),
      (batchLoop classify pts i out).2 = List.range' i pts.length
  | [], _, _ => rfl
  | _ :: rest, i, out => by
    simp only [batchLoop, List.length_cons, List.range'_succ]
    rw [batchLoop_writes classify rest (i + 1) _]

/-- Slots below the starting index are left untouched by the batch loop. -/
lemma batchLoop_getD_lt {α : Type} (classify : α → Nat) :
    ∀ (pts : List α) (i : Nat) (out : List Nat) (j : Nat), j < i →
      (batchLoop classify pts i out).1.getD j 0 = out.getD j 0
  | [], _, _, _, _ => rfl
  | pt :: rest, i, out, j, hj => by
    simp only [batchLoop]
    rw [batchLoop_getD_lt classify rest (i + 1) _ j (by omega)]
    rw [List.getD_eq_getElem?_getD, List.getD_eq_getElem?_getD,
        List.getElem?_set_ne (by omega)]

/-- Each slot of the output ends up holding the classification of the query
point with the same index. -/
lemma batchLoop_getD {α : Type} (classify : α → Nat) :
    ∀ (pts : List α) (j i : Nat) (out : List Nat) (d : α),
      j < pts.length → i + pts.length ≤ out.length →
      (batchLoop classify pts i out).1.getD (i + j) 0 = classify (pts.getD j d)
  | [], j, _, _, _, hj, _ => by simp at hj
  | pt :: rest, 0, i, out, d, _, hlen => by
    simp only [batchLoop, Nat.add_zero, List.getD_cons_zero]
    rw [batchLoop_getD_lt classify rest (i + 1) _ i (by omega)]
    rw [List.getD_eq_getElem?_getD,
        List.getElem?_set_self (by simp at hlen ⊢; omega)]
    rfl
  | pt :: rest, j + 1, i, out, d, hj, hlen => by
    simp only [batchLoop, List.getD_cons_succ]
    have harg : i + (j + 1) = (i + 1) + j := by omega
    rw [harg]
    exact batchLoop_getD classify rest j (i + 1) _ d
      (by simp at hj; omega) (by simp at hlen ⊢; omega)

/-- Reinterpreting a mapped flat buffer pairs the mapped coordinates. -/
lemma pairUp_map {α β : Type} (g : α → β) :
    ∀ (l : List α),
      pairUp (l.map g) = (pairUp l).map (fun q => (g q.1, g q.2))
  | [] => rfl
  | [_] => rfl
  | x :: y :: rest => by
    simp only [List.map_cons, pairUp]
    rw [pairUp_map g rest]

/-- The batch loop over a mapped point list is the batch loop over the
original list with the classifier precomposed. -/
lemma batchLoop_map {α β : Type} (classify : β → Nat) (g : α → β) :
    ∀ (pts : List α) (i : Nat) (out : List Nat),
      batchLoop classify (pts.map g) i out =
        batchLoop (fun a => classify (g a)) pts i out
  | [], _, _ => rfl
  | _ :: rest, i, out => by
    simp only [List.map_cons, batchLoop]
    rw [batchLoop_map classify g rest (i + 1) _]

/-- Batch loop started at slot 0 on a pre-allocated buffer: slot `j` holds the
classification of point `j`. -/
lemma batchLoop_spec {α : Type} (classify : α → Nat) (pts : List α)
    (out : List Nat) (d : α) (h : out.length = pts.length)
    (j : Nat) (hj : j < pts.length) :
    (batchLoop classify pts 0 out).1.getD j 0 = classify (pts.getD j d) := by
  have hres := batchLoop_getD classify pts j 0 out d hj (by omega)
  simpa using hres

/-!  Claim theorems. -/

/-- C1: For every polygon `v[0..N-1]` (`N ≥ 3`) and every query point `p` not
coinciding with any vertex, `_InsidePolygon` scans the `N` wrap-around edges,
counts an edge as a crossing exactly under the claim's five conditions
(`specCrossing`), and returns `OUTSIDE` when the crossing count is even and
`INSIDE` when it is odd. -/
theorem claim_C1_crossing_parity (polygon : List Point) (p : Point) (b : Nat)
    (hN : 3 ≤ polygon.length)
    (hnv : ∀ v ∈ polygon, ¬(v.x = p.x ∧ v.y = p.y)) :
    _InsidePolygon polygon p b =
      (if crossingCount polygon p % 2 = 0 then OUTSIDE else INSIDE) :=
  inside_eq_parity polygon p b (by omega) hnv

/-- Witness for C1 at the convex square and the interior point (5,5). -/
theorem claim_C1_crossing_parity_witness :
    _InsidePolygon squarePoly ⟨5, 5⟩ 7 =
      (if crossingCount squarePoly ⟨5, 5⟩ % 2 = 0 then OUTSIDE else INSIDE) :=
  claim_C1_crossing_parity squarePoly ⟨5, 5⟩ 7 (by decide) (by decide)

/-- C2 counterexample: the claim asserts that the edge point (5,0) of the
convex square is classified `INSIDE`; the code classifies it `OUTSIDE`
(no edge of the square satisfies the crossing condition at `y = 0`, because
`p.y > min(p1.y,p2.y)` fails on every edge touching the bottom side). -/
theorem claim_C2_counterexample :
    (2 : Nat) ≠ INSIDE ∧ (2 : Nat) ≠ OUTSIDE ∧
      _InsidePolygon squarePoly ⟨5, 0⟩ 2 ≠ INSIDE := by
  decide

/-- C2 (amended): for the square `[(0,0),(0,10),(10,10),(10,0)]` and any
border value distinct from `INSIDE` and `OUTSIDE`, the code returns `INSIDE`
for (5,5), `OUTSIDE` for (15,5), the border value for (0,0), and `OUTSIDE`
(not `INSIDE`) for the edge point (5,0). -/
theorem claim_C2_square_cases (b : Nat) (hbI : b ≠ INSIDE)
    (hbO : b ≠ OUTSIDE) :
    _InsidePolygon squarePoly ⟨5, 5⟩ b = INSIDE ∧
    _InsidePolygon squarePoly ⟨15, 5⟩ b = OUTSIDE ∧
    _InsidePolygon squarePoly ⟨0, 0⟩ b = b ∧
    _InsidePolygon squarePoly ⟨5, 0⟩ b = OUTSIDE := by
  refine ⟨?_, ?_, ?_, ?_⟩
  · rw [inside_eq_parity squarePoly ⟨5, 5⟩ b (by decide) (by decide)]
    decide
  · rw [inside_eq_parity squarePoly ⟨15, 5⟩ b (by decide) (by decide)]
    decide
  · exact inside_border_of_vertex squarePoly ⟨0, 0⟩ b 0 (by decide)
      (by decide) (by decide)
  · rw [inside_eq_parity squarePoly ⟨5, 0⟩ b (by decide) (by decide)]
    decide

/-- Witness for the amended C2 at the border value 2. -/
theorem claim_C2_square_cases_witness :
    _InsidePolygon squarePoly ⟨5, 5⟩ 2 = INSIDE ∧
    _InsidePolygon squarePoly ⟨15, 5⟩ 2 = OUTSIDE ∧
    _InsidePolygon squarePoly ⟨0, 0⟩ 2 = 2 ∧
    _InsidePolygon squarePoly ⟨5, 0⟩ 2 = OUTSIDE :=
  claim_C2_square_cases 2 (by decide) (by decide)

/-- C3: a query point bit-exactly equal to the vertex at any position `j`
of the winding order is classified with the border value. -/
theorem claim_C3_vertex_border (polygon : List Point) (p : Point) (b : Nat)
    (j : Nat) (hj : j < polygon.length)
    (hx : (polygon.getD j ⟨0, 0⟩).x = p.x)
    (hy : (polygon.getD j ⟨0, 0⟩).y = p.y) :
    _InsidePolygon polygon p b = b :=
  inside_border_of_vertex polygon p b j hj hx hy

/-- Witness for C3 at the square's third vertex (10,10). -/
theorem claim_C3_vertex_border_witness :
    _InsidePolygon squarePoly ⟨10, 10⟩ 9 = 9 :=
  claim_C3_vertex_border squarePoly ⟨10, 10⟩ 9 2 (by decide) (by decide)
    (by decide)

/-- C5: away from vertex coincidence the classification is independent of
the border value: any two border values give the same result. -/
theorem claim_C5_border_independent (polygon : List Point) (p : Point)
    (b1 b2 : Nat)
    (hnv : ∀ v ∈ polygon, ¬(v.x = p.x ∧ v.y = p.y)) :
    _InsidePolygon polygon p b1 = _InsidePolygon polygon p b2 := by
  rcases Nat.eq_zero_or_pos polygon.length with h0 | hN
  · have hnil : polygon = [] := List.eq_nil_of_length_eq_zero h0
    subst hnil
    rfl
  · rw [inside_eq_parity polygon p b1 hN hnv,
        inside_eq_parity polygon p b2 hN hnv]

/-- Witness for C5 at the square, point (5,5), border values 3 and 200. -/
theorem claim_C5_border_independent_witness :
    _InsidePolygon squarePoly ⟨5, 5⟩ 3 = _InsidePolygon squarePoly ⟨5, 5⟩ 200 :=
  claim_C5_border_independent squarePoly ⟨5, 5⟩ 3 200 (by decide)

/-- C6: the divisor `p2.y - p1.y` of the interpolation is nonzero whenever
the `p1.y ≠ p2.y` guard admits it, and a horizontal edge (`p1.y = p2.y`)
never increments the crossing counter, because the guard conditions
`p.y > min(p1.y,p2.y)` and `p.y ≤ max(p1.y,p2.y)` are jointly unsatisfiable
for such an edge. -/
theorem claim_C6_horizontal_guard (p1 p2 : Point) (px py : ℚ)
    (h : p1.y = p2.y) :
    ¬(py > min p1.y p2.y ∧ py ≤ max p1.y p2.y) ∧
      countsEdge p1 p2 px py = false ∧
      (∀ q1 q2 : Point, q1.y ≠ q2.y → q2.y - q1.y ≠ 0) := by
  refine ⟨?_, ?_, ?_⟩
  · rintro ⟨hgt, hle⟩
    rw [h, min_self] at hgt
    rw [h, max_self] at hle
    exact absurd hle (not_le.mpr hgt)
  · unfold countsEdge
    by_cases hgt : py > min p1.y p2.y
    · rw [if_pos hgt]
      have hnle : ¬ py ≤ max p1.y p2.y := by
        rw [h, min_self] at hgt
        rw [h, max_self]
        exact not_le.mpr hgt
      rw [if_neg hnle]
    · rw [if_neg hgt]
  · intro q1 q2 hq hzero
    exact hq (sub_eq_zero.mp hzero).symm

/-- Witness for C6 at the horizontal edge from (0,3) to (5,3) and the query
point (1,3). -/
theorem claim_C6_horizontal_guard_witness :
    ¬((3 : ℚ) > min (Point.mk 0 3).y (Point.mk 5 3).y ∧
        (3 : ℚ) ≤ max (Point.mk 0 3).y (Point.mk 5 3).y) ∧
      countsEdge ⟨0, 3⟩ ⟨5, 3⟩ 1 3 = false ∧
      (∀ q1 q2 : Point, q1.y ≠ q2.y → q2.y - q1.y ≠ 0) :=
  claim_C6_horizontal_guard ⟨0, 3⟩ ⟨5, 3⟩ 1 3 rfl

/-- C7: rotating the polygon's vertex list (same cyclic sequence, same
winding direction, different starting vertex) never changes the
classification of any query point, for any border value. -/
theorem claim_C7_rotation_invariant (polygon : List Point) (p : Point)
    (b : Nat) (k : Nat) :
    _InsidePolygon (polygon.rotate k) p b = _InsidePolygon polygon p b := by
  by_cases hv : ∃ v ∈ polygon, v.x = p.x ∧ v.y = p.y
  · obtain ⟨v, hm, hx, hy⟩ := hv
    rw [inside_border_of_mem polygon p b v hm hx hy,
        inside_border_of_mem (polygon.rotate k) p b v
          (List.mem_rotate.mpr hm) hx hy]
  · have hnv : ∀ v ∈ polygon, ¬(v.x = p.x ∧ v.y = p.y) :=
      fun v hm hc => hv ⟨v, hm, hc⟩
    rcases Nat.eq_zero_or_pos polygon.length with h0 | hN
    · have hnil : polygon = [] := List.eq_nil_of_length_eq_zero h0
      subst hnil
      rw [List.rotate_nil]
    · have hN' : 0 < (polygon.rotate k).length := by
        rw [List.length_rotate]; exact hN
      have hnv' : ∀ v ∈ polygon.rotate k, ¬(v.x = p.x ∧ v.y = p.y) :=
        fun v hm hc => hnv v (List.mem_rotate.mp hm) hc
      rw [inside_eq_parity polygon p b hN hnv,
          inside_eq_parity (polygon.rotate k) p b hN' hnv',
          crossingCount_rotate]

/-- C4: for each of the three entry points, with a pre-allocated output
buffer, every output slot `i` equals the single-point predicate applied to
query point `i` with the narrowed border byte, and the slots are written in
index order `0..N_points-1` with no reordering, filtering, or early
termination. -/
theorem claim_C4_batch_consistency (vertices : List ℚ) (ptsD ptsF : List ℚ)
    (ptsI : List ℤ) (bv : ℤ) (outD outF outI : List Nat) (i : Nat) :
    ((outD.length = (pairUp ptsD).length → i < (pairUp ptsD).length →
      (PointsInsidePolygon vertices ptsD bv outD).output.getD i 0 =
        _InsidePolygon ((pairUp vertices).map (fun q => Point.mk q.1 q.2))
          (((pairUp ptsD).map (fun q => Point.mk q.1 q.2)).getD i ⟨0, 0⟩)
          (byteOfInt bv)) ∧
     (PointsInsidePolygon vertices ptsD bv outD).writes =
        List.range (pairUp ptsD).length) ∧
    ((outF.length = (pairUp ptsF).length → i < (pairUp ptsF).length →
      (PointsInsidePolygonF vertices ptsF bv outF).output.getD i 0 =
        _InsidePolygonF ((pairUp vertices).map (fun q => Point.mk q.1 q.2))
          (((pairUp ptsF).map (fun q => PointF.mk q.1 q.2)).getD i ⟨0, 0⟩)
          (byteOfInt bv)) ∧
     (PointsInsidePolygonF vertices ptsF bv outF).writes =
        List.range (pairUp ptsF).length) ∧
    ((outI.length = (pairUp ptsI).length → i < (pairUp ptsI).length →
      (PointsInsidePolygonInt vertices ptsI bv outI).output.getD i 0 =
        _InsidePolygonInt ((pairUp vertices).map (fun q => Point.mk q.1 q.2))
          (((pairUp ptsI).map (fun q => PointInt.mk q.1 q.2)).getD i ⟨0, 0⟩)
          (byteOfInt bv)) ∧
     (PointsInsidePolygonInt vertices ptsI bv outI).writes =
        List.range (pairUp ptsI).length) := by
  refine ⟨⟨?_, ?_⟩, ⟨?_, ?_⟩, ⟨?_, ?_⟩⟩
  · intro hlen hi
    show (batchLoop _ _ 0 outD).1.getD i 0 = _
    exact batchLoop_spec
      (fun pt => _InsidePolygon
        ((pairUp vertices).map (fun q => Point.mk q.1 q.2)) pt (byteOfInt bv))
      ((pairUp ptsD).map (fun q => Point.mk q.1 q.2)) outD ⟨0, 0⟩
      (by simpa using hlen) i (by simpa using hi)
  · show (batchLoop _ _ 0 outD).2 = _
    rw [batchLoop_writes, List.length_map, List.range_eq_range']
  · intro hlen hi
    show (batchLoop _ _ 0 outF).1.getD i 0 = _
    exact batchLoop_spec
      (fun pt => _InsidePolygonF
        ((pairUp vertices).map (fun q => Point.mk q.1 q.2)) pt (byteOfInt bv))
      ((pairUp ptsF).map (fun q => PointF.mk q.1 q.2)) outF ⟨0, 0⟩
      (by simpa using hlen) i (by simpa using hi)
  · show (batchLoop _ _ 0 outF).2 = _
    rw [batchLoop_writes, List.length_map, List.range_eq_range']
  · intro hlen hi
    show (batchLoop _ _ 0 outI).1.getD i 0 = _
    exact batchLoop_spec
      (fun pt => _InsidePolygonInt
        ((pairUp vertices).map (fun q => Point.mk q.1 q.2)) pt (byteOfInt bv))
      ((pairUp ptsI).map (fun q => PointInt.mk q.1 q.2)) outI ⟨0, 0⟩
      (by simpa using hlen) i (by simpa using hi)
  · show (batchLoop _ _ 0 outI).2 = _
    rw [batchLoop_writes, List.length_map, List.range_eq_range']

/-- Witness for C4: one-point buffers over the square for all three entry
points, each implication discharged at index 0. -/
theorem claim_C4_batch_consistency_witness :
    (PointsInsidePolygon [0, 0, 0, 10, 10, 10, 10, 0] [5, 5] 2 [7]).output.getD
        0 0 =
      _InsidePolygon ((pairUp [0, 0, 0, 10, 10, 10, 10, 0]).map
          (fun q => Point.mk q.1 q.2))
        (((pairUp [(5 : ℚ), 5]).map (fun q => Point.mk q.1 q.2)).getD 0 ⟨0, 0⟩)
        (byteOfInt 2) ∧
    (PointsInsidePolygonF [0, 0, 0, 10, 10, 10, 10, 0] [5, 5] 2 [7]).output.getD
        0 0 =
      _InsidePolygonF ((pairUp [0, 0, 0, 10, 10, 10, 10, 0]).map
          (fun q => Point.mk q.1 q.2))
        (((pairUp [(5 : ℚ), 5]).map (fun q => PointF.mk q.1 q.2)).getD 0 ⟨0, 0⟩)
        (byteOfInt 2) ∧
    (PointsInsidePolygonInt [0, 0, 0, 10, 10, 10, 10, 0] [5, 5] 2 [7]).output.getD
        0 0 =
      _InsidePolygonInt ((pairUp [0, 0, 0, 10, 10, 10, 10, 0]).map
          (fun q => Point.mk q.1 q.2))
        (((pairUp [(5 : ℤ), 5]).map (fun q => PointInt.mk q.1 q.2)).getD 0 ⟨0, 0⟩)
        (byteOfInt 2) := by
  have h := claim_C4_batch_consistency [0, 0, 0, 10, 10, 10, 10, 0] [5, 5]
    [5, 5] [5, 5] 2 [7] [7] [7] 0
  exact ⟨h.1.1 (by decide) (by decide), h.2.1.1 (by decide) (by decide),
    h.2.2.1 (by decide) (by decide)⟩

/-- C8: each batch entry point leaves the vertex and point buffers unchanged,
keeps the output buffer at its pre-allocated length, and performs exactly one
write per query point, to slots `0..N_points-1` in order. -/
theorem claim_C8_frame (vertices : List ℚ) (ptsD ptsF : List ℚ)
    (ptsI : List ℤ) (bv : ℤ) (outD outF outI : List Nat) :
    ((PointsInsidePolygon vertices ptsD bv outD).vertices = vertices ∧
     (PointsInsidePolygon vertices ptsD bv outD).points = ptsD ∧
     (PointsInsidePolygon vertices ptsD bv outD).output.length = outD.length ∧
     (PointsInsidePolygon vertices ptsD bv outD).writes =
       List.range (pairUp ptsD).length) ∧
    ((PointsInsidePolygonF vertices ptsF bv outF).vertices = vertices ∧
     (PointsInsidePolygonF vertices ptsF bv outF).points = ptsF ∧
     (PointsInsidePolygonF vertices ptsF bv outF).output.length = outF.length ∧
     (PointsInsidePolygonF vertices ptsF bv outF).writes =
       List.range (pairUp ptsF).length) ∧
    ((PointsInsidePolygonInt vertices ptsI bv outI).vertices = vertices ∧
     (PointsInsidePolygonInt vertices ptsI bv outI).points = ptsI ∧
     (PointsInsidePolygonInt vertices ptsI bv outI).output.length =
       outI.length ∧
     (PointsInsidePolygonInt vertices ptsI bv outI).writes =
       List.range (pairUp ptsI).length) := by
  refine ⟨⟨rfl, rfl, ?_, ?_⟩, ⟨rfl, rfl, ?_, ?_⟩, ⟨rfl, rfl, ?_, ?_⟩⟩
  · exact batchLoop_length _ _ 0 outD
  · show (batchLoop _ _ 0 outD).2 = _
    rw [batchLoop_writes, List.length_map, List.range_eq_range']
  · exact batchLoop_length _ _ 0 outF
  · show (batchLoop _ _ 0 outF).2 = _
    rw [batchLoop_writes, List.length_map, List.range_eq_range']
  · exact batchLoop_length _ _ 0 outI
  · show (batchLoop _ _ 0 outI).2 = _
    rw [batchLoop_writes, List.length_map, List.range_eq_range']

/-- C9: on a query buffer of integer coordinates (exactly representable in
double, float and int alike), the three entry points fill the output buffer
identically. -/
theorem claim_C9_type_consistency (vertices : List ℚ) (ipts : List ℤ)
    (bv : ℤ) (out : List Nat) :
    (PointsInsidePolygon vertices (ipts.map (fun z : ℤ => (z : ℚ))) bv out).output =
      (PointsInsidePolygonInt vertices ipts bv out).output ∧
    (PointsInsidePolygonF vertices (ipts.map (fun z : ℤ => (z : ℚ))) bv out).output =
      (PointsInsidePolygonInt vertices ipts bv out).output := by
  simp only [PointsInsidePolygon, PointsInsidePolygonF, PointsInsidePolygonInt]
  rw [pairUp_map (fun z : ℤ => (z : ℚ)) ipts]
  rw [List.map_map, List.map_map, batchLoop_map, batchLoop_map, batchLoop_map]
  exact ⟨rfl, rfl⟩

/-- C10: each batch entry point narrows `border_value` to a byte by
truncation modulo 256 before any predicate call; a query point that
coincides with a polygon vertex therefore receives the byte
`border_value mod 256` (so 257 yields 1). -/
theorem claim_C10_border_truncation (vertices : List ℚ) (ptsD ptsF : List ℚ)
    (ptsI : List ℤ) (bv : ℤ) (outD outF outI : List Nat) (i : Nat) :
    ((outD.length = (pairUp ptsD).length ∧ i < (pairUp ptsD).length ∧
      (∃ v ∈ (pairUp vertices).map (fun q => Point.mk q.1 q.2),
        v.x = (((pairUp ptsD).map (fun q => Point.mk q.1 q.2)).getD i
          ⟨0, 0⟩).x ∧
        v.y = (((pairUp ptsD).map (fun q => Point.mk q.1 q.2)).getD i
          ⟨0, 0⟩).y)) →
      (PointsInsidePolygon vertices ptsD bv outD).output.getD i 0 =
        (bv % 256).toNat) ∧
    ((outF.length = (pairUp ptsF).length ∧ i < (pairUp ptsF).length ∧
      (∃ v ∈ (pairUp vertices).map (fun q => Point.mk q.1 q.2),
        v.x = (((pairUp ptsF).map (fun q => PointF.mk q.1 q.2)).getD i
          ⟨0, 0⟩).x ∧
        v.y = (((pairUp ptsF).map (fun q => PointF.mk q.1 q.2)).getD i
          ⟨0, 0⟩).y)) →
      (PointsInsidePolygonF vertices ptsF bv outF).output.getD i 0 =
        (bv % 256).toNat) ∧
    ((outI.length = (pairUp ptsI).length ∧ i < (pairUp ptsI).length ∧
      (∃ v ∈ (pairUp vertices).map (fun q => Point.mk q.1 q.2),
        v.x = ((((pairUp ptsI).map (fun q => PointInt.mk q.1 q.2)).getD i
          ⟨0, 0⟩).x : ℚ) ∧
        v.y = ((((pairUp ptsI).map (fun q => PointInt.mk q.1 q.2)).getD i
          ⟨0, 0⟩).y : ℚ))) →
      (PointsInsidePolygonInt vertices ptsI bv outI).output.getD i 0 =
        (bv % 256).toNat) := by
  refine ⟨?_, ?_, ?_⟩
  · rintro ⟨hlen, hi, v, hm, hx, hy⟩
    have hspec := batchLoop_spec
      (fun pt => _InsidePolygon ((pairUp vertices).map (fun q => Point.mk q.1 q.2))
        pt (byteOfInt bv))
      (((pairUp ptsD).map (fun q => Point.mk q.1 q.2))) outD ⟨0, 0⟩
      (by simpa using hlen) i (by simpa using hi)
    show (batchLoop _ _ 0 outD).1.getD i 0 = _
    rw [hspec]
    exact inside_border_of_mem _ _ _ v hm hx hy
  · rintro ⟨hlen, hi, v, hm, hx, hy⟩
    have hspec := batchLoop_spec
      (fun pt => _InsidePolygonF ((pairUp vertices).map (fun q => Point.mk q.1 q.2))
        pt (byteOfInt bv))
      (((pairUp ptsF).map (fun q => PointF.mk q.1 q.2))) outF ⟨0, 0⟩
      (by simpa using hlen) i (by simpa using hi)
    show (batchLoop _ _ 0 outF).1.getD i 0 = _
    rw [hspec]
    exact insideF_border_of_mem _ _ _ v hm hx hy
  · rintro ⟨hlen, hi, v, hm, hx, hy⟩
    have hspec := batchLoop_spec
      (fun pt => _InsidePolygonInt ((pairUp vertices).map (fun q => Point.mk q.1 q.2))
        pt (byteOfInt bv))
      (((pairUp ptsI).map (fun q => PointInt.mk q.1 q.2))) outI ⟨0, 0⟩
      (by simpa using hlen) i (by simpa using hi)
    show (batchLoop _ _ 0 outI).1.getD i 0 = _
    rw [hspec]
    exact insideInt_border_of_mem _ _ _ v hm hx hy

/-- Witness for C10: border value 257 at a vertex-coinciding query point
yields output byte 1 on all three entry points. -/
theorem claim_C10_border_truncation_witness :
    (PointsInsidePolygon [0, 0, 0, 10, 10, 10, 10, 0] [0, 0] 257 [9]).output.getD
        0 0 = 1 ∧
    (PointsInsidePolygonF [0, 0, 0, 10, 10, 10, 10, 0] [0, 0] 257 [9]).output.getD
        0 0 = 1 ∧
    (PointsInsidePolygonInt [0, 0, 0, 10, 10, 10, 10, 0] [0, 0] 257 [9]).output.getD
        0 0 = 1 := by
  have h := claim_C10_border_truncation [0, 0, 0, 10, 10, 10, 10, 0] [0, 0]
    [0, 0] [0, 0] 257 [9] [9] [9] 0
  exact ⟨h.1 ⟨by decide, by decide, by decide⟩,
    h.2.1 ⟨by decide, by decide, by decide⟩,
    h.2.2 ⟨by decide, by decide, by decide⟩⟩

end InsidePolygonC
